import Mathlib

/-!
Shallow embedding of the DownOnSpot download pipeline
(src/audio_format.rs, src/convert.rs, src/download.rs) and proofs about it.

External collaborators (librespot session, network, codecs) are modelled by
their interfaces: lookups become explicit functions, streams become lists
of the results their reads produce.
-/

namespace DownOnSpot

/-- Mirror of librespot's `FileFormat` enum (the external catalog's
encoding-variant identifiers), as consumed by src/audio_format.rs. -/
inductive FileFormat where
  | OGG_VORBIS_96
  | OGG_VORBIS_160
  | OGG_VORBIS_320
  | MP3_256
  | MP3_320
  | MP3_160
  | MP3_96
  | MP3_160_ENC
  | MP4_128_DUAL
  | OTHER3
  | AAC_160
  | AAC_320
  | MP4_128
  | OTHER5
deriving DecidableEq, Repr

/-- src/audio_format.rs, `DownloadOrderStrategy`. -/
inductive DownloadOrderStrategy where
  | MP3
  | OGG
  | QUALITY
deriving DecidableEq, Repr

/-- src/audio_format.rs, `DownloadOrderStrategy::formats`: the fixed
preference list of each strategy. -/
def DownloadOrderStrategy.formats : DownloadOrderStrategy → List FileFormat
  | .MP3 =>
    [FileFormat.MP3_320, FileFormat.MP3_256, FileFormat.MP3_160,
     FileFormat.MP3_160_ENC, FileFormat.MP3_96]
  | .OGG =>
    [FileFormat.OGG_VORBIS_320, FileFormat.OGG_VORBIS_160, FileFormat.OGG_VORBIS_96]
  | .QUALITY =>
    [FileFormat.MP3_320, FileFormat.OGG_VORBIS_320, FileFormat.MP3_256,
     FileFormat.MP3_160, FileFormat.MP3_160_ENC, FileFormat.OGG_VORBIS_160,
     FileFormat.MP3_96, FileFormat.OGG_VORBIS_96]

/-- src/audio_format.rs, `is_ogg`. -/
def is_ogg (format : FileFormat) : Bool :=
  match format with
  | .OGG_VORBIS_320 | .OGG_VORBIS_160 | .OGG_VORBIS_96 => true
  | _ => false

/-- src/error.rs, `DownOnSpotError` (string payloads elided; only the
variants reachable from the embedded code paths matter here). -/
inductive DownOnSpotError where
  | Error
  | Authentication
  | IoError
  | Unavailable
  | InvalidOrUnsupportedId
  | DecoderError
  | EncoderError
  | Invalid
  | DownloaderError
deriving DecidableEq, Repr

/-- Mirror of librespot's `Track` metadata as used by src/download.rs:
`files` is the variant-to-file-reference mapping (a map, modelled as an
association list with unique keys; file references as `Nat`),
`alternatives` the list of alternative track ids, `available` the
availability flag. -/
structure Track where
  id : Nat
  name : String
  artist : String
  files : List (FileFormat × Nat)
  alternatives : List Nat
  available : Bool
deriving DecidableEq, Repr

/-- src/download.rs, `DownloadClient::file_id`: walk the strategy's
preference list, return the first format present as a key in `files`
together with its file reference, else `Unavailable`. -/
def file_id (strategy : DownloadOrderStrategy) (files : List (FileFormat × Nat)) :
    Except DownOnSpotError (Nat × FileFormat) :=
  match strategy.formats.findSome? (fun format =>
      (files.lookup format).map (fun fid => (fid, format))) with
  | some r => .ok r
  | none => .error .Unavailable

/-- src/download.rs, `SPOTIFY_OGG_HEADER_END`. -/
def SPOTIFY_OGG_HEADER_END : Nat := 0xA7

/-- src/download.rs, `DecryptedAudioFile`, with the reader's seek position
after opening made explicit (`position`). -/
structure DecryptedAudioFile where
  is_ogg : Bool
  position : Nat
  size : Nat
  format : FileFormat
deriving DecidableEq, Repr

/-- src/download.rs, `DownloadClient::decrypt_stream`. The external
`AudioFile::open` / key request are modelled by their outcome: `rawLen` is
the opened stream's length (`get_stream_loader_controller().len()`); their
failure paths just propagate an error and are elided. `none` models the
`usize` underflow of `size - offset` when `rawLen < 0xA7` for an OGG
format (a panic in debug builds, wrap-around in release builds). -/
def decrypt_stream (strategy : DownloadOrderStrategy) (track : Track)
    (rawLen : Nat) : Option (Except DownOnSpotError DecryptedAudioFile) :=
  match file_id strategy track.files with
  | .error e => some (.error e)
  | .ok (_, format) =>
    let ogg := is_ogg format
    let offset := if ogg then SPOTIFY_OGG_HEADER_END else 0
    if rawLen < offset then
      none
    else
      some (.ok { is_ogg := ogg, position := offset, size := rawLen - offset,
                  format := format })

/-- src/download.rs, `DownloadClient::available_track`. The external
`Track::get` catalog lookup is the explicit `lookup` argument; the
`FuturesUnordered` race over the alternatives is modelled by inspecting
them in list order (one admissible completion order — the properties
proved below are insensitive to which available alternative wins).
Failed lookups and unavailable candidates are discarded. -/
def available_track (lookup : Nat → Except DownOnSpotError Track)
    (track : Track) : Option Track :=
  if track.files ≠ [] then
    some track
  else
    track.alternatives.findSome? (fun altId =>
      match lookup altId with
      | .ok alt => if alt.available then some alt else none
      | .error _ => none)

/-- One result of `OggStreamReader::read_dec_packet` in src/convert.rs:
either a decode error, or a decoded packet, one sample list per channel.
End-of-stream (the `None` return) is the end of the list of results. -/
abbrev DecResult := Except DownOnSpotError (List (List Int))

/-- Outcome of one `AudioConverter::read_encoded` call: a panic (the
unchecked `data[0]` / `data[1]` indexing), a propagated decoder or encoder
error, or an encoded byte count together with the decoder's remaining
packets. -/
inductive ConvResult where
  | panic
  | failure (e : DownOnSpotError)
  | output (size : Nat) (rest : List DecResult)
deriving Repr

/-- src/convert.rs, `AudioConverter::read_encoded`. The decoder is the
list `packets` of its successive `read_dec_packet` results; the external
LAME encoder is the function `enc` from the two channels' samples to the
encoded byte count (or an error). Mirrors the source exactly: a depleted
decoder returns 0; a decode error propagates; channels 0 and 1 are
indexed before any check (fewer than two channels panics); a packet whose
first channel is empty is skipped by recursing; an encode producing 0
bytes is skipped by recursing; otherwise the encoded size is returned. -/
def read_encoded (enc : List Int → List Int → Except DownOnSpotError Nat) :
    List DecResult → ConvResult
  | [] => .output 0 []
  | .error e :: _ => .failure e
  | .ok packet :: rest =>
    match packet with
    | pcm_left :: pcm_right :: _ =>
      if pcm_left = [] then
        read_encoded enc rest
      else
        match enc pcm_left pcm_right with
        | .error e => .failure e
        | .ok 0 => read_encoded enc rest
        | .ok (size + 1) => .output (size + 1) rest
    | _ => .panic

/-- src/download.rs, `DownloadProgress`. -/
inductive DownloadProgress where
  | Started
  | Progress (current : Nat) (total : Nat)
  | Finished
deriving DecidableEq, Repr

/-- One item of the progress stream produced by `DownloadClient::download`
(`Result<DownloadProgress, DownOnSpotError>`). -/
abbrev Event := Except DownOnSpotError DownloadProgress

/-- Kind of a failed `reader.read` call in the chunk-copy loop of
src/download.rs: `ErrorKind::Interrupted` versus every other kind. -/
inductive ReadErrorKind where
  | interrupted
  | other
deriving DecidableEq, Repr

/-- One result of `reader.read(&mut buffer)` in the chunk-copy loop:
either an error of some kind or a byte count (0 = end of data). -/
abbrev ReadStep := Except ReadErrorKind Nat

/-- How the chunk-copy loop of `DownloadClient::download` ended:
`finished` via a zero-length read (with the accumulated byte count),
`aborted` via a non-interrupted read error (the bare `return;`), or
`starved` when the modelled reader trace ran out before either. -/
inductive LoopOutcome where
  | finished (bytes : Nat)
  | aborted
  | starved
deriving DecidableEq, Repr

/-- The chunk-copy loop of src/download.rs, `DownloadClient::download`
(lines 184-206): reads are the successive results `steps` of the boxed
reader; `current` is the running byte count and `size` the total reported
by `reader()`. Returns the events yielded by the loop and how it ended.
`Ok(0)` yields `Finished` and breaks; `Ok(n)` extends the accumulator and
yields `Progress`; an `Interrupted` error just continues; any other error
returns from the stream without yielding anything. -/
def runLoop (size : Nat) : Nat → List ReadStep → List Event × LoopOutcome
  | _, [] => ([], .starved)
  | current, step :: rest =>
    match step with
    | .ok 0 => ([.ok .Finished], .finished current)
    | .ok (n + 1) =>
      let r := runLoop size (current + (n + 1)) rest
      (.ok (.Progress (current + (n + 1)) size) :: r.1, r.2)
    | .error .interrupted => runLoop size current rest
    | .error .other => ([], .aborted)

/-- The output file name computed at src/download.rs lines 211-215:
`"<artist> - <name>.mp3"` when the `mp3` flag is set, else
`"<artist> - <name>.ogg"` — the extension depends only on the flag. -/
def output_file_name (artist name : String) (mp3 : Bool) : String :=
  if mp3 then
    artist ++ " - " ++ name ++ ".mp3"
  else
    artist ++ " - " ++ name ++ ".ogg"

/-- src/download.rs, `DownloadClient::download` (the `try_stream!` body),
as the pair (event sequence, written file name if any). External effects
are their outcomes: `artist` is the `Artist::get` result, `reader` the
result of `self.reader(...)` (total size and the trace of read results),
`writeOk` whether `File::create(..)?.write_all(..)` succeeds. `Started`
is yielded first; a failing `?` yields its error as the stream's last
item; after a `Finished` the accumulated bytes are written, a write
failure yielding one more error item; only a completed loop followed by a
successful write produces a file. -/
def download (artist : Except DownOnSpotError String)
    (reader : Except DownOnSpotError (Nat × List ReadStep))
    (trackName : String) (mp3 : Bool) (writeOk : Bool) :
    List Event × Option String :=
  match artist with
  | .error e => ([.ok .Started, .error e], none)
  | .ok artistName =>
    match reader with
    | .error e => ([.ok .Started, .error e], none)
    | .ok (size, steps) =>
      let r := runLoop size 0 steps
      match r.2 with
      | .finished _ =>
        if writeOk then
          (.ok .Started :: r.1, some (output_file_name artistName trackName mp3))
        else
          (.ok .Started :: (r.1 ++ [.error .IoError]), none)
      | _ => (.ok .Started :: r.1, none)

/-- One held entry of the download progress queue: the not-yet-consumed
items of that job's progress stream. -/
abbrev ProgressStream := List Event

/-- The effect of one `download.next().await` inspection inside
`remove_finished`: `none` when the stream is dropped (exhausted stream,
error item, or a `Finished` event), `some rest` when the stream is kept,
its first pending item consumed. -/
def keepStep (s : ProgressStream) : Option ProgressStream :=
  match s with
  | [] => none
  | .error _ :: _ => none
  | .ok .Finished :: _ => none
  | .ok _ :: rest => some rest

/-- The `while let Some(download) = ...pop()` loop of `remove_finished`:
`stack` holds the queue in pop order (last element first) and `acc` the
new queue built so far (`Vec::push` = append at the end). -/
def reapLoop : List ProgressStream → List ProgressStream → List ProgressStream
  | [], acc => acc
  | s :: rest, acc =>
    match keepStep s with
    | some s' => reapLoop rest (acc ++ [s'])
    | none => reapLoop rest acc

/-- src/download.rs, `DownloadClient::remove_finished`: pop every held
stream (from the back), await its next item, drop the stream when that
item is `Ok(Finished)` — or when the stream is exhausted or yields an
error, since the `if let Some(Ok(..))` pattern fails — and push the
survivors into the replacement queue. -/
def remove_finished (queue : List ProgressStream) : List ProgressStream :=
  reapLoop queue.reverse []

/-- Tail check of the event-ordering guarantee the code actually provides,
after the leading `Started`: `Progress` events are strictly increasing in
their byte count; the trace may end with nothing (read error / modelled
trace exhausted), with a single error item, with `Finished`, or with
`Finished` followed by a single error item (failed final write); no
second `Started` and no event after the write error. -/
def traceTail (cur : Nat) : List Event → Bool
  | [] => true
  | .error _ :: rest => rest.isEmpty
  | .ok .Finished :: rest =>
    match rest with
    | [] => true
    | [.error _] => true
    | _ => false
  | .ok (.Progress c _) :: rest => decide (cur < c) && traceTail c rest
  | .ok .Started :: _ => false

/-- Event-ordering guarantee the code actually provides: a single leading
`Started`, then a `traceTail`-conforming tail. -/
def downloadTraceOk (evs : List Event) : Bool :=
  match evs with
  | .ok .Started :: rest => traceTail 0 rest
  | _ => false

/-- Modelled from the spec: tail of the spec's claimed ordering invariant
after the leading `Started` — `Progress` non-decreasing with
`bytes_done ≤ bytes_total`, and exactly one terminal event (`Finished` or
an error) ending the sequence with no events after it. -/
def specTail (cur : Nat) : List Event → Bool
  | [] => false
  | .error _ :: rest => rest.isEmpty
  | .ok .Finished :: rest => rest.isEmpty
  | .ok (.Progress c t) :: rest => decide (cur ≤ c) && decide (c ≤ t) && specTail c rest
  | .ok .Started :: _ => false

/-- Modelled from the spec: the claimed `ProgressEvent` ordering invariant
(spec §3): exactly one `Started` first, `Progress` non-decreasing and
bounded by the total, exactly one terminal event last. -/
def specOrderingInvariant (evs : List Event) : Bool :=
  match evs with
  | .ok .Started :: rest => specTail 0 rest
  | _ => false

/-- src/download.rs, `DownloadClient::reader`: the transcoding stage
(`AudioConverter`) is interposed exactly when the selected variant is OGG
and the `mp3` flag is set. -/
def transcode_applied (format : FileFormat) (mp3 : Bool) : Bool :=
  is_ogg format && mp3

/-- Modelled from the spec: the native container extension of each
encoding variant (spec §6: "otherwise the native container extension", in
particular `mp3` for natively-MP3 variants). -/
def native_extension (format : FileFormat) : String :=
  match format with
  | .OGG_VORBIS_96 | .OGG_VORBIS_160 | .OGG_VORBIS_320 => "ogg"
  | .MP3_256 | .MP3_320 | .MP3_160 | .MP3_96 | .MP3_160_ENC => "mp3"
  | .MP4_128_DUAL | .MP4_128 => "mp4"
  | .AAC_160 | .AAC_320 => "aac"
  | .OTHER3 | .OTHER5 => ""

/-- Modelled from the spec: the extension the spec claims for the output
file — `mp3` exactly when transcoding was applied, otherwise the native
extension of the selected variant. -/
def spec_extension (format : FileFormat) (mp3 : Bool) : String :=
  if transcode_applied format mp3 then "mp3" else native_extension format

/-- The extension the code actually uses (src/download.rs lines 211-215):
it depends only on the `mp3` flag. -/
def code_extension (mp3 : Bool) : String :=
  if mp3 then "mp3" else "ogg"

/-- Does a decoded packet carry at least two channels of sample data? (A
decode error carries no packet to index, so it cannot panic.) -/
def packet_has_stereo (p : DecResult) : Bool :=
  match p with
  | .ok d => 2 ≤ d.length
  | .error _ => true

/-- A concrete encoder for witnesses: encodes a stereo pair to as many
bytes as the left channel has samples. -/
def encW : List Int → List Int → Except DownOnSpotError Nat :=
  fun l _ => .ok l.length

/-- A concrete encoder for witnesses that always produces zero output
bytes. -/
def encZ : List Int → List Int → Except DownOnSpotError Nat :=
  fun _ _ => .ok 0

/-- A concrete track with a non-empty variant mapping, for witnesses. -/
def trackW : Track :=
  { id := 0, name := "T", artist := "A",
    files := [(FileFormat.OGG_VORBIS_320, 3)], alternatives := [],
    available := true }

/-- A concrete available alternative track, for witnesses. -/
def trackAltW : Track :=
  { id := 9, name := "B", artist := "A",
    files := [(FileFormat.MP3_96, 4)], alternatives := [], available := true }

/-- A concrete track with an empty variant mapping and two alternatives,
for witnesses. -/
def trackEmptyW : Track :=
  { id := 1, name := "T", artist := "A", files := [],
    alternatives := [7, 9], available := false }

/-- A concrete catalog lookup for witnesses: alternative 9 resolves to
`trackAltW`, everything else fails. -/
def lookupW : Nat → Except DownOnSpotError Track :=
  fun n => if n = 9 then .ok trackAltW else .error .Error

section Helpers

variable {α β : Type}

/-- A successful `List.findSome?` splits the list into a scanned prefix on
which the function returns `none`, the hit, and the rest. -/
theorem findSome?_eq_some_split (f : α → Option β) :
    ∀ (l : List α) (b : β), l.findSome? f = some b →
      ∃ l1 a l2, l = l1 ++ a :: l2 ∧ f a = some b ∧ ∀ x ∈ l1, f x = none := by
  intro l
  induction l with
  | nil => intro b h; simp [List.findSome?] at h
  | cons x xs ih =>
    intro b h
    rw [List.findSome?_cons] at h
    cases hx : f x with
    | some c =>
      rw [hx] at h
      refine ⟨[], x, xs, by simp, ?_, by simp⟩
      simpa [hx] using h
    | none =>
      rw [hx] at h
      obtain ⟨l1, a, l2, hsplit, ha, hnone⟩ := ih b h
      refine ⟨x :: l1, a, l2, by simp [hsplit], ha, ?_⟩
      intro y hy
      rcases List.mem_cons.mp hy with rfl | hy
      · exact hx
      · exact hnone y hy

/-- `List.findSome?` returns `none` exactly when the function returns
`none` on every element. -/
theorem findSome?_eq_none_iff (f : α → Option β) :
    ∀ l : List α, l.findSome? f = none ↔ ∀ a ∈ l, f a = none := by
  intro l
  induction l with
  | nil => simp [List.findSome?]
  | cons x xs ih =>
    rw [List.findSome?_cons]
    cases hx : f x with
    | some c => simp [hx]
    | none => simp [hx, ih]

end Helpers

/-- The reap loop appends the surviving streams of its stack, in stack
order, to the accumulator. -/
theorem reapLoop_eq (stack : List ProgressStream) :
    ∀ acc, reapLoop stack acc = acc ++ stack.filterMap keepStep := by
  induction stack with
  | nil => intro acc; simp [reapLoop]
  | cons s rest ih =>
    intro acc
    cases h : keepStep s with
    | some s' => simp [reapLoop, h, ih]
    | none => simp [reapLoop, h, ih]

/-- C1 (amended): `remove_finished` advances every held stream by one
event: a stream whose next pending item is `Ok(Finished)`, or an error
item, or whose stream is exhausted, is dropped; every other stream is
retained with that one item consumed; the survivors appear in reverse of
the original queue order (a consequence of pop-from-the-back /
push-in-pop-order). -/
theorem remove_finished_characterization :
    (∀ queue : List ProgressStream,
      remove_finished queue = (queue.filterMap keepStep).reverse)
    ∧ (∀ rest : ProgressStream, keepStep (.ok .Finished :: rest) = none)
    ∧ (∀ (e : DownOnSpotError) (rest : ProgressStream),
        keepStep (.error e :: rest) = none)
    ∧ keepStep [] = none
    ∧ (∀ rest : ProgressStream, keepStep (.ok .Started :: rest) = some rest)
    ∧ (∀ (c t : Nat) (rest : ProgressStream),
        keepStep (.ok (.Progress c t) :: rest) = some rest) := by
  refine ⟨?_, fun _ => rfl, fun _ _ => rfl, rfl, fun _ => rfl, fun _ _ _ => rfl⟩
  intro queue
  rw [remove_finished, reapLoop_eq, List.nil_append, List.filterMap_reverse]

/-- C1 (counterexample): a held stream whose pending items are
`[Ok(Started), Ok(Finished)]` is not yet finished, so the claim requires
`reap` to retain it unchanged; `remove_finished` instead consumes its
pending `Started` event, retaining only the tail. -/
theorem remove_finished_consumes_counterexample :
    remove_finished [[Except.ok .Started, Except.ok .Finished]]
      = [[Except.ok DownloadProgress.Finished]]
    ∧ ([[Except.ok DownloadProgress.Finished]] : List ProgressStream)
      ≠ [[Except.ok DownloadProgress.Started, Except.ok DownloadProgress.Finished]] := by
  constructor
  · rfl
  · intro h
    simp at h

/-- C3 (amended): in the chunk-copy loop, a read error of kind
`Interrupted` is retried in place — the loop's events and outcome are
those of the remaining reads, with no event emitted and the byte count
unchanged — while a read error of any other kind ends the loop at once
with the `aborted` outcome, emitting no event at all (the bare `return;`
never surfaces it as a `Failed` stream item). -/
theorem read_error_handling :
    (∀ (size cur : Nat) (rest : List ReadStep),
      runLoop size cur (.error .interrupted :: rest) = runLoop size cur rest)
    ∧ (∀ (size cur : Nat) (rest : List ReadStep),
      runLoop size cur (.error .other :: rest) = ([], .aborted)) :=
  ⟨fun _ _ _ => rfl, fun _ _ _ => rfl⟩

/-- C3 (counterexample): with a single non-interrupted read error the job's
whole event sequence is `[Started]` — the error is terminal but is never
surfaced as a `Failed` (error) item, contradicting the claim that every
non-interrupted read error is surfaced as the job's Failed event. -/
theorem read_error_not_surfaced_counterexample :
    (download (.ok "A") (.ok (5, [.error .other])) "T" false true).1
      = [Except.ok DownloadProgress.Started]
    ∧ (([Except.ok DownloadProgress.Started] : List Event).all
        (fun e => match e with | .error _ => false | .ok _ => true)) = true := by
  exact ⟨rfl, rfl⟩

/-- The events emitted by the chunk-copy loop form a valid trace tail:
strictly increasing progress, ending either with nothing (abort or
exhausted trace) or with one `Finished`. -/
theorem traceTail_runLoop (size : Nat) :
    ∀ (steps : List ReadStep) (cur : Nat),
      traceTail cur (runLoop size cur steps).1 = true := by
  intro steps
  induction steps with
  | nil => intro cur; rfl
  | cons step rest ih =>
    intro cur
    match step with
    | .ok 0 => rfl
    | .ok (n + 1) =>
      have h1 : cur < cur + (n + 1) := Nat.lt_add_of_pos_right (Nat.succ_pos n)
      simp [runLoop, traceTail, h1, ih]
    | .error .interrupted => exact ih cur
    | .error .other => rfl

/-- When the chunk-copy loop finishes, its events followed by one error
item (the failed final write) still form a valid trace tail. -/
theorem traceTail_runLoop_finished (size : Nat) (e : DownOnSpotError) :
    ∀ (steps : List ReadStep) (cur b : Nat),
      (runLoop size cur steps).2 = .finished b →
      traceTail cur ((runLoop size cur steps).1 ++ [Except.error e]) = true := by
  intro steps
  induction steps with
  | nil => intro cur b h; simp [runLoop] at h
  | cons step rest ih =>
    intro cur b h
    match step with
    | .ok 0 => rfl
    | .ok (n + 1) =>
      have h1 : cur < cur + (n + 1) := Nat.lt_add_of_pos_right (Nat.succ_pos n)
      have h2 := ih (cur + (n + 1)) b (by simpa [runLoop] using h)
      simp [runLoop, traceTail, h1, h2]
    | .error .interrupted => exact ih cur b h
    | .error .other => simp [runLoop] at h

/-- C2 (amended): every event sequence of a download job begins with
exactly one `Started` before any other event, its `Progress` events are
strictly increasing in `bytes_done` (but not bounded by `bytes_total`),
and it ends in one of the shapes the code produces: one error item after
a failed step, `Finished` (possibly followed by exactly one error item
for a failed final write), or — after a non-interrupted read error —
no terminal event at all. -/
theorem download_trace_invariant :
    ∀ (artist : Except DownOnSpotError String)
      (reader : Except DownOnSpotError (Nat × List ReadStep))
      (trackName : String) (mp3 writeOk : Bool),
      downloadTraceOk (download artist reader trackName mp3 writeOk).1 = true := by
  intro artist reader trackName mp3 writeOk
  match artist with
  | .error e => rfl
  | .ok artistName =>
    match reader with
    | .error e => rfl
    | .ok (size, steps) =>
      have hA := traceTail_runLoop size steps 0
      match h : (runLoop size 0 steps).2 with
      | .finished b =>
        cases writeOk with
        | true => simp [download, h, downloadTraceOk, hA]
        | false =>
          have hB := traceTail_runLoop_finished size .IoError steps 0 b h
          simp [download, h, downloadTraceOk, hB]
      | .aborted => simp [download, h, downloadTraceOk, hA]
      | .starved => simp [download, h, downloadTraceOk, hA]

/-- C2 (counterexample): a job whose reader reports 2 bytes against a
total of 1 and then fails with a non-interrupted read error emits
`[Started, Progress 2 1]` — a `Progress` with `bytes_done > bytes_total`
and no terminal event ending the sequence — so the claimed ordering
invariant is violated by the code. -/
theorem download_ordering_counterexample :
    (download (.ok "A") (.ok (1, [.ok 2, .error .other])) "T" false true).1
      = [Except.ok DownloadProgress.Started, Except.ok (DownloadProgress.Progress 2 1)]
    ∧ specOrderingInvariant
        [Except.ok DownloadProgress.Started,
         Except.ok (DownloadProgress.Progress 2 1)] = false :=
  ⟨rfl, rfl⟩

/-- C4 (amended): a download job persists a file only when the chunk-copy
loop reached end-of-data and the final write succeeded — so no partial
file is left behind by a job that fails before the final write step — and
the persisted file is named `<artist> - <title>.<ext>` where `<ext>` is
`mp3` exactly when the `mp3` flag is set and `ogg` otherwise, regardless
of the native format of the selected variant. -/
theorem output_file_characterization :
    ∀ (artist : Except DownOnSpotError String)
      (reader : Except DownOnSpotError (Nat × List ReadStep))
      (trackName : String) (mp3 writeOk : Bool) (f : String),
      (download artist reader trackName mp3 writeOk).2 = some f →
      ∃ artistName size steps b,
        artist = .ok artistName ∧ reader = .ok (size, steps)
        ∧ (runLoop size 0 steps).2 = .finished b ∧ writeOk = true
        ∧ f = artistName ++ " - " ++ trackName
            ++ (if mp3 then ".mp3" else ".ogg") := by
  intro artist reader trackName mp3 writeOk f hf
  match artist with
  | .error e => simp [download] at hf
  | .ok artistName =>
    match reader with
    | .error e => simp [download] at hf
    | .ok (size, steps) =>
      match h : (runLoop size 0 steps).2 with
      | .finished b =>
        cases writeOk with
        | false => simp [download, h] at hf
        | true =>
          refine ⟨artistName, size, steps, b, rfl, rfl, h, rfl, ?_⟩
          simp [download, h] at hf
          cases mp3 with
          | true => simpa [output_file_name] using hf.symm
          | false => simpa [output_file_name] using hf.symm
      | .aborted => simp [download, h] at hf
      | .starved => simp [download, h] at hf

/-- C4 (witness): a job for track "T" by artist "A" whose reader yields 3
bytes then end-of-data, with the mp3 flag set, persists exactly the file
"A - T.mp3". -/
theorem output_file_characterization_witness :
    ∃ artistName size steps b,
      (Except.ok "A" : Except DownOnSpotError String) = .ok artistName
      ∧ (Except.ok ((1 : Nat), [Except.ok 3, Except.ok 0])
          : Except DownOnSpotError (Nat × List ReadStep)) = .ok (size, steps)
      ∧ (runLoop size 0 steps).2 = .finished b ∧ true = true
      ∧ "A - T.mp3" = artistName ++ " - " ++ "T"
          ++ (if true then ".mp3" else ".ogg") :=
  output_file_characterization (.ok "A") (.ok (1, [.ok 3, .ok 0])) "T" true true
    "A - T.mp3" rfl

/-- C4 (counterexample): with the `mp3` flag off and a track whose only
variant is natively MP3 (`MP3_320`, selected by the MP3 strategy), no
transcoding is applied, so the claim requires the native extension `mp3`;
the code names the file with extension `ogg`. -/
theorem output_extension_counterexample :
    file_id .MP3 [(FileFormat.MP3_320, 7)] = .ok (7, FileFormat.MP3_320)
    ∧ transcode_applied FileFormat.MP3_320 false = false
    ∧ spec_extension FileFormat.MP3_320 false = "mp3"
    ∧ (download (.ok "A") (.ok (3, [.ok 3, .ok 0])) "T" false true).2
        = some "A - T.ogg"
    ∧ code_extension false = "ogg"
    ∧ ("A - T.ogg" : String) ≠ "A - T.mp3" :=
  ⟨rfl, rfl, rfl, rfl, rfl, by decide⟩

/-- C5: a `read_encoded` call returns a zero byte count only with the
decoder fully exhausted (no packets remain), and both skip paths — a
decoded packet whose sample data is empty, and an encode step producing
zero output bytes — continue reading within the same call instead of
surfacing a zero-length read. -/
theorem read_encoded_zero_only_at_end :
    (∀ (enc : List Int → List Int → Except DownOnSpotError Nat)
       (packets rest : List DecResult),
      read_encoded enc packets = .output 0 rest → rest = [])
    ∧ (∀ (enc : List Int → List Int → Except DownOnSpotError Nat)
         (pcm_right : List Int) (chans : List (List Int)) (rest : List DecResult),
      read_encoded enc (.ok ([] :: pcm_right :: chans) :: rest)
        = read_encoded enc rest)
    ∧ (∀ (enc : List Int → List Int → Except DownOnSpotError Nat)
         (l r : List Int) (chans : List (List Int)) (rest : List DecResult),
      l ≠ [] → enc l r = .ok 0 →
      read_encoded enc (.ok (l :: r :: chans) :: rest) = read_encoded enc rest) := by
  refine ⟨?_, ?_, ?_⟩
  · intro enc packets
    induction packets with
    | nil =>
      intro rest h
      simp [read_encoded] at h
      exact h
    | cons p ps ih =>
      intro rest h
      match p with
      | .error e => simp [read_encoded] at h
      | .ok [] => simp [read_encoded] at h
      | .ok [l] => simp [read_encoded] at h
      | .ok (l :: r :: chans) =>
        by_cases hl : l = []
        · rw [read_encoded, if_pos hl] at h
          exact ih rest h
        · rw [read_encoded, if_neg hl] at h
          cases he : enc l r with
          | error e => rw [he] at h; simp at h
          | ok n =>
            rw [he] at h
            cases n with
            | zero => exact ih rest h
            | succ m => simp at h
  · intro enc pcm_right chans rest
    rw [read_encoded, if_pos rfl]
  · intro enc l r chans rest hl he
    rw [read_encoded, if_neg hl, he]

/-- C5 (witness): the zero-return property applied at an exhausted decoder
preceded by an empty packet, and the zero-output skip applied at a
concrete packet with the all-zero-output encoder. -/
theorem read_encoded_zero_only_at_end_witness :
    (([] : List DecResult) = [])
    ∧ read_encoded encZ [(.ok [[5], [6]] : DecResult)] = read_encoded encZ [] :=
  ⟨read_encoded_zero_only_at_end.1 encW [.ok [[], []]] [] rfl,
   read_encoded_zero_only_at_end.2.2 encZ [5] [6] [] [] (by simp) rfl⟩

/-- C10: `read_encoded` never reaches the panic of the unchecked
channel-0 / channel-1 indexing when every successfully decoded packet
carries at least two channels of sample data, and a single decoded
mono packet does panic — so reads are panic-free only under the
two-channel precondition. -/
theorem read_encoded_panic_freedom :
    (∀ (enc : List Int → List Int → Except DownOnSpotError Nat)
       (packets : List DecResult),
      packets.all packet_has_stereo = true → read_encoded enc packets ≠ .panic)
    ∧ read_encoded encW [(.ok [[1]] : DecResult)] = .panic := by
  refine ⟨?_, rfl⟩
  intro enc packets
  induction packets with
  | nil => intro _ h; simp [read_encoded] at h
  | cons p ps ih =>
    intro hall h
    rw [List.all_cons, Bool.and_eq_true] at hall
    match p with
    | .error e => simp [read_encoded] at h
    | .ok [] => simp [packet_has_stereo] at hall
    | .ok [l] => simp [packet_has_stereo] at hall
    | .ok (l :: r :: chans) =>
      by_cases hl : l = []
      · rw [read_encoded, if_pos hl] at h
        exact ih hall.2 h
      · rw [read_encoded, if_neg hl] at h
        cases he : enc l r with
        | error e => rw [he] at h; simp at h
        | ok n =>
          rw [he] at h
          cases n with
          | zero => exact ih hall.2 h
          | succ m => simp at h

/-- C10 (witness): with every packet stereo, the read does not panic. -/
theorem read_encoded_panic_freedom_witness :
    read_encoded encW [(.ok [[1], [2]] : DecResult)] ≠ ConvResult.panic :=
  read_encoded_panic_freedom.1 encW [(.ok [[1], [2]] : DecResult)] (by decide)

/-- C6: a track with a non-empty variant mapping is returned unchanged —
for every possible catalog lookup function, so no lookup can influence
the result; a track with an empty mapping resolves to some alternative
whose availability flag is true whenever at least one alternative looks
up successfully as available (failed lookups and unavailable candidates
are discarded), and to none when every alternative is exhausted. -/
theorem available_track_spec :
    ∀ (lookup : Nat → Except DownOnSpotError Track) (t : Track),
      (t.files ≠ [] → available_track lookup t = some t)
      ∧ (t.files = [] →
          ((∃ a ∈ t.alternatives, ∃ alt, lookup a = .ok alt ∧ alt.available = true) →
            ∃ alt, available_track lookup t = some alt ∧ alt.available = true
              ∧ ∃ a ∈ t.alternatives, lookup a = .ok alt)
          ∧ ((∀ a ∈ t.alternatives, ∀ alt, lookup a = .ok alt →
                alt.available = false) →
            available_track lookup t = none)) := by
  intro lookup t
  have hf : ∀ (x : Nat) (b : Track),
      (match lookup x with
        | .ok alt => if alt.available then some alt else none
        | .error _ => none) = some b →
      lookup x = .ok b ∧ b.available = true := by
    intro x b hx
    cases hlx : lookup x with
    | error e => rw [hlx] at hx; simp at hx
    | ok alt =>
      rw [hlx] at hx
      cases hav : alt.available with
      | false => simp [hav] at hx
      | true =>
        simp [hav] at hx
        subst hx
        exact ⟨rfl, hav⟩
  refine ⟨fun h => by simp [available_track, h], fun hfiles => ⟨?_, ?_⟩⟩
  · rintro ⟨a, ha, alt, hla, hav⟩
    have hres : available_track lookup t
        = t.alternatives.findSome? (fun altId =>
            match lookup altId with
            | .ok alt => if alt.available then some alt else none
            | .error _ => none) := by
      simp [available_track, hfiles]
    cases hfs : t.alternatives.findSome? (fun altId =>
        match lookup altId with
        | .ok alt => if alt.available then some alt else none
        | .error _ => none) with
    | none =>
      have := (findSome?_eq_none_iff _ t.alternatives).mp hfs a ha
      rw [hla] at this
      simp [hav] at this
    | some b =>
      obtain ⟨l1, x, l2, hsplit, hx, -⟩ := findSome?_eq_some_split _ _ _ hfs
      obtain ⟨hlx, hbav⟩ := hf x b hx
      refine ⟨b, by rw [hres, hfs], hbav, x, ?_, hlx⟩
      rw [hsplit]
      simp
  · intro hall
    have : ∀ a ∈ t.alternatives,
        (match lookup a with
          | .ok alt => if alt.available then some alt else none
          | .error _ => none) = none := by
      intro a ha
      cases hla : lookup a with
      | error e => rfl
      | ok alt =>
        have := hall a ha alt hla
        simp [hla, this]
    simp [available_track, hfiles]
    exact this

/-- C6 (witness): a track with a non-empty mapping is returned unchanged
under a lookup that always fails, and the empty-mapping track with
alternatives `[7, 9]` (9 resolving to the available `trackAltW`) resolves
to some available alternative. -/
theorem available_track_spec_witness :
    available_track (fun _ => Except.error .Error) trackW = some trackW
    ∧ ∃ alt, available_track lookupW trackEmptyW = some alt
        ∧ alt.available = true
        ∧ ∃ a ∈ trackEmptyW.alternatives, lookupW a = .ok alt :=
  ⟨(available_track_spec (fun _ => Except.error .Error) trackW).1
      (by simp [trackW]),
   ((available_track_spec lookupW trackEmptyW).2 rfl).1
      ⟨9, by simp [trackEmptyW], trackAltW, by simp [lookupW], rfl⟩⟩

/-- C7: `file_id` returns the file reference and variant of the first
variant of the strategy's fixed preference list that is present as a key
in the track's mapping — every strictly higher-priority variant (the
scanned prefix `pre`) is absent from the mapping, which for the QUALITY
(best-available) strategy means a lower-priority variant is never chosen
over a present higher-priority one — and it fails with `Unavailable`
exactly when none of the listed variants is present. -/
theorem file_id_first_preferred :
    ∀ (strategy : DownloadOrderStrategy) (files : List (FileFormat × Nat))
      (fid : Nat) (format : FileFormat),
      (file_id strategy files = .ok (fid, format) →
        ∃ pre post, strategy.formats = pre ++ format :: post
          ∧ files.lookup format = some fid
          ∧ ∀ g ∈ pre, files.lookup g = none)
      ∧ (file_id strategy files = .error .Unavailable ↔
          ∀ g ∈ strategy.formats, files.lookup g = none) := by
  intro strategy files fid format
  constructor
  · intro h
    cases hfs : strategy.formats.findSome? (fun format =>
        (files.lookup format).map (fun fid => (fid, format))) with
    | none => rw [file_id, hfs] at h; simp at h
    | some r =>
      rw [file_id, hfs] at h
      cases h
      obtain ⟨l1, a, l2, hsplit, ha, hnone⟩ := findSome?_eq_some_split _ _ _ hfs
      cases hla : files.lookup a with
      | none => rw [hla] at ha; simp at ha
      | some v =>
        rw [hla] at ha
        simp only [Option.map_some'] at ha
        cases ha
        refine ⟨l1, l2, hsplit, hla, ?_⟩
        intro g hg
        have := hnone g hg
        cases hlg : files.lookup g with
        | none => rfl
        | some w => rw [hlg] at this; simp at this
  · constructor
    · intro h g hg
      cases hfs : strategy.formats.findSome? (fun format =>
          (files.lookup format).map (fun fid => (fid, format))) with
      | some r => rw [file_id, hfs] at h; simp at h
      | none =>
        have := (findSome?_eq_none_iff _ strategy.formats).mp hfs g hg
        cases hlg : files.lookup g with
        | none => rfl
        | some w => rw [hlg] at this; simp at this
    · intro h
      have : strategy.formats.findSome? (fun format =>
          (files.lookup format).map (fun fid => (fid, format))) = none := by
        rw [findSome?_eq_none_iff]
        intro g hg
        rw [h g hg]
        rfl
      rw [file_id, this]

/-- C7 (witness): with the OGG strategy and a mapping holding only
`OGG_VORBIS_160`, the higher-priority `OGG_VORBIS_320` is the scanned
prefix and the 160 variant is selected. -/
theorem file_id_first_preferred_witness :
    ∃ pre post,
      DownloadOrderStrategy.OGG.formats
        = pre ++ FileFormat.OGG_VORBIS_160 :: post
      ∧ ([(FileFormat.OGG_VORBIS_160, 5)] : List (FileFormat × Nat)).lookup
          FileFormat.OGG_VORBIS_160 = some 5
      ∧ ∀ g ∈ pre,
          ([(FileFormat.OGG_VORBIS_160, 5)] : List (FileFormat × Nat)).lookup g
            = none :=
  (file_id_first_preferred .OGG [(FileFormat.OGG_VORBIS_160, 5)] 5
    FileFormat.OGG_VORBIS_160).1 rfl

/-- C8: every successfully opened decrypted stream of an OGG (container)
variant has been seeked to the fixed `0xA7` header end and reports a
length equal to the raw source length minus `0xA7`; for a non-container
variant the position is 0 and the reported length is the raw length
unmodified. The `is_ogg` flag of the result agrees with `is_ogg` of the
selected variant. -/
theorem decrypt_stream_length :
    ∀ (strategy : DownloadOrderStrategy) (track : Track) (rawLen : Nat)
      (d : DecryptedAudioFile),
      decrypt_stream strategy track rawLen = some (.ok d) →
      (d.is_ogg = true →
        d.position = SPOTIFY_OGG_HEADER_END
          ∧ d.size + SPOTIFY_OGG_HEADER_END = rawLen)
      ∧ (d.is_ogg = false → d.position = 0 ∧ d.size = rawLen)
      ∧ d.is_ogg = is_ogg d.format := by
  intro strategy track rawLen d h
  cases hfid : file_id strategy track.files with
  | error e => rw [decrypt_stream, hfid] at h; simp at h
  | ok p =>
    obtain ⟨fid, format⟩ := p
    have h2 : (if rawLen < (if is_ogg format then SPOTIFY_OGG_HEADER_END else 0)
        then (none : Option (Except DownOnSpotError DecryptedAudioFile))
        else some (.ok
          { is_ogg := is_ogg format,
            position := if is_ogg format then SPOTIFY_OGG_HEADER_END else 0,
            size := rawLen - (if is_ogg format then SPOTIFY_OGG_HEADER_END else 0),
            format := format })) = some (.ok d) := by
      rw [← h, decrypt_stream, hfid]
    clear h
    cases hogg : is_ogg format with
    | true =>
      rw [hogg] at h2
      simp only [if_true] at h2
      by_cases hlen : rawLen < SPOTIFY_OGG_HEADER_END
      · rw [if_pos hlen] at h2; simp at h2
      · rw [if_neg hlen] at h2
        simp only [Option.some.injEq, Except.ok.injEq] at h2
        subst h2
        refine ⟨fun _ => ⟨rfl, Nat.sub_add_cancel (Nat.le_of_not_lt hlen)⟩,
          fun hfalse => by simp at hfalse, ?_⟩
        simp [hogg]
    | false =>
      rw [hogg] at h2
      simp only [Bool.false_eq_true, if_false] at h2
      rw [if_neg (Nat.not_lt.mpr (Nat.zero_le rawLen))] at h2
      simp only [Option.some.injEq, Except.ok.injEq] at h2
      subst h2
      refine ⟨fun htrue => by simp at htrue,
        fun _ => ⟨rfl, Nat.sub_zero rawLen⟩, ?_⟩
      simp [hogg]

/-- C8 (witness): opening the OGG_VORBIS_320 variant of `trackW` over a
200-byte raw stream seeks to position 0xA7 = 167 and reports length
200 - 167 = 33. -/
theorem decrypt_stream_length_witness :
    ((DecryptedAudioFile.mk true 167 33 .OGG_VORBIS_320).is_ogg = true →
      (DecryptedAudioFile.mk true 167 33 .OGG_VORBIS_320).position
          = SPOTIFY_OGG_HEADER_END
        ∧ (DecryptedAudioFile.mk true 167 33 .OGG_VORBIS_320).size
            + SPOTIFY_OGG_HEADER_END = 200)
    ∧ ((DecryptedAudioFile.mk true 167 33 .OGG_VORBIS_320).is_ogg = false →
      (DecryptedAudioFile.mk true 167 33 .OGG_VORBIS_320).position = 0
        ∧ (DecryptedAudioFile.mk true 167 33 .OGG_VORBIS_320).size = 200)
    ∧ (DecryptedAudioFile.mk true 167 33 .OGG_VORBIS_320).is_ogg
        = is_ogg (DecryptedAudioFile.mk true 167 33 .OGG_VORBIS_320).format :=
  decrypt_stream_length .OGG trackW 200
    (DecryptedAudioFile.mk true 167 33 .OGG_VORBIS_320) rfl

/-- C9: whenever the selected variant is an OGG format, the unguarded
`size - offset` subtraction in `decrypt_stream` underflows exactly when
the raw stream length is below `0xA7` — the operation is well-defined
only under the precondition `rawLen ≥ 0xA7`. -/
theorem decrypt_stream_underflow :
    ∀ (strategy : DownloadOrderStrategy) (track : Track) (rawLen fid : Nat)
      (format : FileFormat),
      file_id strategy track.files = .ok (fid, format) →
      is_ogg format = true →
      (decrypt_stream strategy track rawLen = none
        ↔ rawLen < SPOTIFY_OGG_HEADER_END) := by
  intro strategy track rawLen fid format hfid hogg
  rw [decrypt_stream, hfid]
  simp only [hogg, if_true]
  by_cases hlen : rawLen < SPOTIFY_OGG_HEADER_END
  · simp [hlen]
  · simp [hlen]

/-- C9 (witness): with `trackW`'s OGG_VORBIS_320 variant and a raw length
of 10 bytes the subtraction underflows, since 10 < 0xA7. -/
theorem decrypt_stream_underflow_witness :
    decrypt_stream .OGG trackW 10 = none ↔ 10 < SPOTIFY_OGG_HEADER_END :=
  decrypt_stream_underflow .OGG trackW 10 3 .OGG_VORBIS_320 rfl rfl

end DownOnSpot
